import Mathlib

set_option maxRecDepth 10000

/-!
Verification development for the `bevy_radix_sort` crate: a GPU-resident,
stable least-significant-digit radix sort over `u32` keys with associated
`u32` values.  The repository ships two example drivers
(`examples/simple_gpu_sort.rs`, `examples/show_subgroup_size.rs`); the sort
engine itself (pass orchestration, readiness tracking, buffer management)
is modelled here from the specification, while the example drivers are
embedded directly from their Rust source.
-/

namespace BevyRadixSort

/-- Modelled from the spec: an 8-bit digit of a 32-bit key.  `digit d k` is
the `d`-th byte of `k` (least significant first), i.e. bits `[8*d, 8*d+8)`. -/
def digit (d k : Nat) : Nat := k / 256 ^ d % 256

/-- Modelled from the spec (§4.5 Digit Pass, whose stated responsibility is a
"stable partition of `length` key-value pairs by an 8-bit digit"): the
histogram / exclusive-prefix-sum / scatter pipeline places all pairs whose
current digit is `b` contiguously, buckets in increasing digit order, and
within one bucket pairs keep their input order.  That is exactly the
concatenation over `b = 0..255` of the input filtered to digit `b`. -/
def digitPass (d : Nat) (l : List (Nat × Nat)) : List (Nat × Nat) :=
  (List.range 256).flatMap fun b => l.filter fun e => digit d e.1 = b

/-- Modelled from the spec (§4.5): the 256-bucket histogram of a digit pass —
for each digit value `b`, how many of the keys have digit `b` at position `d`. -/
def histogram (d : Nat) (l : List (Nat × Nat)) (b : Nat) : Nat :=
  l.countP fun e => digit d e.1 = b

/-- Modelled from the spec (§4.5): the exclusive prefix sum over the histogram,
yielding for each digit value `b` the index of the first output slot reserved
for pairs with that digit value. -/
def exclusivePrefixSum (d : Nat) (l : List (Nat × Nat)) (b : Nat) : Nat :=
  ((List.range b).map (histogram d l)).sum

/-- Modelled from the spec (§4.4 Pass Orchestrator): run digit passes
`0, 1, ..., n-1` in order, least-significant digit first. -/
def radixSortPasses : Nat → List (Nat × Nat) → List (Nat × Nat)
  | 0, l => l
  | d + 1, l => digitPass d (radixSortPasses d l)

/-- Modelled from the spec: the full sort runs 4 digit passes, one per byte of
a 32-bit key. -/
def radixSort (l : List (Nat × Nat)) : List (Nat × Nat) :=
  radixSortPasses 4 l

/-! ### Generic lemmas about bucket concatenations -/

theorem pairwise_of_forall {α : Type} {R : α → α → Prop} (h : ∀ a b, R a b) :
    ∀ l : List α, List.Pairwise R l
  | [] => List.Pairwise.nil
  | a :: l => List.Pairwise.cons (fun b _ => h a b) (pairwise_of_forall h l)

theorem countP_flatMap_range {α : Type} (g : Nat → List α) (p : α → Bool) :
    ∀ n, ((List.range n).flatMap g).countP p
      = ((List.range n).map fun b => (g b).countP p).sum := by
  intro n
  induction n with
  | zero => simp
  | succ n ih =>
      rw [List.range_succ, List.flatMap_append, List.countP_append, ih, List.map_append,
        List.sum_append]
      simp

theorem sum_map_add {β : Type} (f g : β → Nat) :
    ∀ s : List β, (s.map fun b => f b + g b).sum = (s.map f).sum + (s.map g).sum := by
  intro s
  induction s with
  | nil => simp
  | cons a s ih => simp [ih]; omega

theorem sum_map_range_ite (c : Nat) :
    ∀ n k, k < n → ((List.range n).map fun b => if k = b then c else 0).sum = c := by
  intro n
  induction n with
  | zero => intro k hk; omega
  | succ n ih =>
      intro k hk
      rw [List.range_succ, List.map_append, List.sum_append]
      by_cases h : k = n
      · subst h
        have hz : ((List.range k).map fun b => if k = b then c else 0).sum = 0 := by
          apply List.sum_eq_zero
          intro x hx
          rcases List.mem_map.mp hx with ⟨b, hb, hbx⟩
          have : k ≠ b := by
            have := List.mem_range.mp hb
            omega
          simp [this] at hbx
          omega
        simp [hz]
      · have hk' : k < n := by omega
        have := ih k hk'
        simp [this, h]

theorem flatMap_range_eq_single {α : Type} (g : Nat → List α) :
    ∀ n b, b < n → (∀ b', b' ≠ b → g b' = []) → (List.range n).flatMap g = g b := by
  intro n
  induction n with
  | zero => intro b hb; omega
  | succ n ih =>
      intro b hb hother
      rw [List.range_succ, List.flatMap_append]
      by_cases h : b = n
      · subst h
        have hz : (List.range b).flatMap g = [] := by
          apply List.flatMap_eq_nil_iff.mpr
          intro b' hb'
          exact hother b' (by have := List.mem_range.mp hb'; omega)
        simp [hz]
      · have hb' : b < n := by omega
        rw [ih b hb' hother]
        simp [hother n (by omega)]

theorem pairwise_flatMap_range {α : Type} {R : α → α → Prop} (g : Nat → List α)
    (hin : ∀ b, List.Pairwise R (g b))
    (hcross : ∀ b b', b < b' → ∀ x ∈ g b, ∀ y ∈ g b', R x y) :
    ∀ n, List.Pairwise R ((List.range n).flatMap g) := by
  intro n
  induction n with
  | zero => simp
  | succ n ih =>
      rw [List.range_succ, List.flatMap_append]
      rw [List.pairwise_append]
      refine ⟨ih, by simpa using hin n, ?_⟩
      intro x hx y hy
      rcases List.mem_flatMap.mp hx with ⟨b, hb, hxb⟩
      have hbn : b < n := List.mem_range.mp hb
      exact hcross b n hbn x hxb y (by simpa using hy)

/-! ### Properties of one digit pass -/

theorem digit_lt (d k : Nat) : digit d k < 256 :=
  Nat.mod_lt _ (by omega)

theorem sum_countP_split (p : Nat × Nat → Bool) (d : Nat) :
    ∀ l : List (Nat × Nat),
      ((List.range 256).map fun b => l.countP fun e => p e && decide (digit d e.1 = b)).sum
        = l.countP p := by
  intro l
  induction l with
  | nil => simp
  | cons e l ih =>
      simp only [List.countP_cons]
      rw [show (fun b => (l.countP fun e' => p e' && decide (digit d e'.1 = b))
            + if (p e && decide (digit d e.1 = b)) = true then 1 else 0)
          = fun b => (fun b => l.countP fun e' => p e' && decide (digit d e'.1 = b)) b
            + (fun b => if (p e && decide (digit d e.1 = b)) = true then 1 else 0) b from rfl,
        sum_map_add, ih]
      by_cases hp : p e = true
      · simp only [hp, Bool.true_and, decide_eq_true_eq, if_true]
        rw [sum_map_range_ite 1 256 (digit d e.1) (digit_lt d e.1)]
      · have hp' : p e = false := Bool.eq_false_iff.mpr hp
        simp [hp']

theorem countP_digitPass (d : Nat) (p : Nat × Nat → Bool) (l : List (Nat × Nat)) :
    (digitPass d l).countP p = l.countP p := by
  rw [digitPass, countP_flatMap_range]
  refine Eq.trans (congrArg List.sum (List.map_congr_left ?_)) (sum_countP_split p d l)
  intro b _
  apply List.countP_filter

theorem digitPass_perm (d : Nat) (l : List (Nat × Nat)) : (digitPass d l).Perm l := by
  rw [List.perm_iff_count]
  intro x
  exact countP_digitPass d _ l

theorem filter_digitPass {P : Nat × Nat → Bool} {d b0 : Nat} (hb0 : b0 < 256)
    (hP : ∀ e, P e = true → digit d e.1 = b0) (l : List (Nat × Nat)) :
    (digitPass d l).filter P = l.filter P := by
  rw [digitPass, List.filter_flatMap]
  have hsingle : (List.range 256).flatMap (fun b => (l.filter fun e => digit d e.1 = b).filter P)
      = (l.filter fun e => digit d e.1 = b0).filter P := by
    apply flatMap_range_eq_single _ 256 b0 hb0
    intro b' hb'
    rw [List.filter_filter]
    apply List.filter_eq_nil_iff.mpr
    intro e _ he
    rw [Bool.and_eq_true] at he
    have := hP e he.1
    have h2 := of_decide_eq_true he.2
    exact hb' (by rw [← this, h2])
  rw [hsingle, List.filter_filter]
  apply List.filter_congr
  intro e _
  by_cases h : P e = true
  · simp [h, hP e h]
  · simp [Bool.eq_false_iff.mpr h]

theorem pow256_pos (n : Nat) : 0 < 256 ^ n := Nat.pos_pow_of_pos n (by omega)

theorem mod_pow_succ_split (n a : Nat) :
    a % 256 ^ (n + 1) = a % 256 ^ n + 256 ^ n * digit n a := by
  rw [pow_succ, Nat.mod_mul, digit]

theorem mod_le_of_digit_lt {a b n : Nat} (h : digit n a < digit n b) :
    a % 256 ^ (n + 1) ≤ b % 256 ^ (n + 1) := by
  rw [mod_pow_succ_split, mod_pow_succ_split]
  have h1 : a % 256 ^ n < 256 ^ n := Nat.mod_lt _ (pow256_pos n)
  have h2 : 256 ^ n * (digit n a + 1) ≤ 256 ^ n * digit n b :=
    mul_le_mul_left' (by omega) _
  have h3 : 256 ^ n * (digit n a + 1) = 256 ^ n * digit n a + 256 ^ n := by ring
  omega

theorem mod_le_of_digit_eq {a b n : Nat} (hd : digit n a = digit n b)
    (hm : a % 256 ^ n ≤ b % 256 ^ n) :
    a % 256 ^ (n + 1) ≤ b % 256 ^ (n + 1) := by
  rw [mod_pow_succ_split, mod_pow_succ_split, hd]
  exact Nat.add_le_add_right hm _

theorem pairwise_digitPass {d : Nat} {l : List (Nat × Nat)}
    (h : List.Pairwise (fun e f => e.1 % 256 ^ d ≤ f.1 % 256 ^ d) l) :
    List.Pairwise (fun e f => e.1 % 256 ^ (d + 1) ≤ f.1 % 256 ^ (d + 1)) (digitPass d l) := by
  rw [digitPass]
  apply pairwise_flatMap_range _ _ _ 256
  · intro b
    have hsub : List.Pairwise (fun e f => e.1 % 256 ^ d ≤ f.1 % 256 ^ d)
        (l.filter fun e => digit d e.1 = b) :=
      h.sublist (List.filter_sublist l)
    apply hsub.imp_of_mem
    intro e f he hf hef
    have hde : digit d e.1 = b := by
      have := (List.mem_filter.mp he).2; simpa using this
    have hdf : digit d f.1 = b := by
      have := (List.mem_filter.mp hf).2; simpa using this
    exact mod_le_of_digit_eq (by rw [hde, hdf]) hef
  · intro b b' hbb' x hx y hy
    have hdx : digit d x.1 = b := by
      have := (List.mem_filter.mp hx).2; simpa using this
    have hdy : digit d y.1 = b' := by
      have := (List.mem_filter.mp hy).2; simpa using this
    exact mod_le_of_digit_lt (by omega)

/-! ### Properties of the full multi-pass sort -/

theorem radixSortPasses_perm : ∀ (n : Nat) (l : List (Nat × Nat)), (radixSortPasses n l).Perm l
  | 0, _ => List.Perm.refl _
  | n + 1, l => (digitPass_perm n (radixSortPasses n l)).trans (radixSortPasses_perm n l)

theorem radixSortPasses_pairwise (l : List (Nat × Nat)) :
    ∀ n, List.Pairwise (fun e f => e.1 % 256 ^ n ≤ f.1 % 256 ^ n) (radixSortPasses n l) := by
  intro n
  induction n with
  | zero => exact pairwise_of_forall (fun a b => by simp [Nat.mod_one]) _
  | succ n ih => exact pairwise_digitPass ih

theorem radixSortPasses_filter_key (k : Nat) :
    ∀ (n : Nat) (l : List (Nat × Nat)),
      (radixSortPasses n l).filter (fun e => e.1 = k) = l.filter (fun e => e.1 = k) := by
  intro n
  induction n with
  | zero => intro l; rfl
  | succ n ih =>
      intro l
      show (digitPass n (radixSortPasses n l)).filter _ = _
      rw [filter_digitPass (digit_lt n k), ih]
      intro e he
      have : e.1 = k := of_decide_eq_true he
      rw [this]

theorem radixSort_perm (l : List (Nat × Nat)) : (radixSort l).Perm l :=
  radixSortPasses_perm 4 l

theorem radixSort_filter_key (k : Nat) (l : List (Nat × Nat)) :
    (radixSort l).filter (fun e => e.1 = k) = l.filter (fun e => e.1 = k) :=
  radixSortPasses_filter_key k 4 l

theorem radixSort_sorted_of_lt {l : List (Nat × Nat)} (h : ∀ e ∈ l, e.1 < 2 ^ 32) :
    List.Pairwise (fun a b => a ≤ b) ((radixSort l).map Prod.fst) := by
  have hp := radixSortPasses_pairwise l 4
  have hmem : ∀ e ∈ radixSort l, e.1 < 2 ^ 32 := by
    intro e he
    exact h e ((radixSort_perm l).mem_iff.mp he)
  rw [List.pairwise_map]
  apply hp.imp_of_mem
  intro e f he hf hef
  have h1 : e.1 % 256 ^ 4 = e.1 := Nat.mod_eq_of_lt (by have := hmem e he; norm_num; omega)
  have h2 : f.1 % 256 ^ 4 = f.1 := Nat.mod_eq_of_lt (by have := hmem f hf; norm_num; omega)
  rw [h1, h2] at hef
  exact hef

/-! ### Engine model: readiness tracker, errors, dispatch planning,
gated sort invocation.  The `bevy_radix_sort` library sources are not part
of the visible repository (only the example drivers are), so these are
modelled from the specification. -/

/-- Modelled from the spec (§3 / §4.2): readiness of the asynchronously
compiled compute programs. -/
inductive ReadinessState : Type
  | pending : ReadinessState
  | ready : ReadinessState
  | failed : String → ReadinessState
deriving DecidableEq

/-- Modelled from the spec (§4.2): the asynchronous compilation status of the
compute programs, as observed on one scheduling tick. -/
inductive CompileStatus : Type
  | inProgress : CompileStatus
  | success : CompileStatus
  | failure : String → CompileStatus
deriving DecidableEq

/-- Modelled from the spec (§4.2 Program Readiness Tracker): one polling tick
of the readiness state machine.  While `pending` the tracker adopts the
observed compilation status; once `ready` or `failed` the state is terminal
and further ticks are no-ops. -/
def pollStep (s : ReadinessState) (c : CompileStatus) : ReadinessState :=
  match s with
  | .ready => .ready
  | .failed r => .failed r
  | .pending =>
      match c with
      | .inProgress => .pending
      | .success => .ready
      | .failure r => .failed r

/-- Modelled from the spec (§7 Error taxonomy). -/
inductive EngineError : Type
  | configurationError : EngineError
  | deviceTimeoutError : EngineError
  | compilationFailure : String → EngineError
deriving DecidableEq

/-- Modelled from the spec (§4.4 / §4.5): the number of compute dispatches one
digit pass issues for `length` elements, given the device limit `maxD` on
work-groups per dispatch dimension and the per-work-group granularity
`gsize`.  A pass over zero elements is a no-op issuing zero dispatches. -/
def passDispatches (gsize maxD length : Nat) : Nat :=
  if length = 0 then 0
  else ((length + gsize - 1) / gsize + maxD - 1) / maxD

/-- Modelled from the spec (§6): the result of a successful sort invocation —
the reordered key and value arrays, plus the total number of device
dispatches issued. -/
structure SortResult : Type where
  keys : List Nat
  vals : List Nat
  dispatches : Nat
deriving DecidableEq

/-- Modelled from the spec (§4.4 / §6 / §7): a sort invocation over host key
and value arrays of length `keys.length`.  A request whose length exceeds the
fixed capacity is rejected immediately as a `ConfigurationError` with no
device work issued; otherwise the engine runs the 4 digit passes and returns
both arrays reordered. -/
def sortCall (capacity gsize maxD : Nat) (keys vals : List Nat) :
    Except EngineError SortResult :=
  if capacity < keys.length then .error .configurationError
  else
    let sorted := radixSort (keys.zip vals)
    .ok ⟨sorted.map Prod.fst, sorted.map Prod.snd,
      4 * passDispatches gsize maxD keys.length⟩

/-- Modelled from the spec (§4.2 / §4.4): a sort request checked against
program readiness.  While `pending` the request is deferred — no dispatch
issued, no buffers consumed — signalled by `none`; on `failed` the fatal
compilation failure is surfaced to the caller; when `ready` the sort runs. -/
def gatedSort (s : ReadinessState) (capacity gsize maxD : Nat)
    (keys vals : List Nat) : Option (Except EngineError SortResult) :=
  match s with
  | .pending => none
  | .failed r => some (.error (.compilationFailure r))
  | .ready => some (sortCall capacity gsize maxD keys vals)

/-! ### Buffer pair ping-pong model -/

/-- Modelled from the spec (§3 / §4.4): the two physical key/value buffer
pairs the passes alternate between.  The library names the first pair "EVE"
(even) — the pair that is the source of even-indexed passes. -/
inductive BufPair : Type
  | eve : BufPair
  | odd : BufPair
deriving DecidableEq

/-- Modelled from the spec (§4.4 step 3): source/destination designation is
swapped after every digit pass. -/
def togglePair : BufPair → BufPair
  | .eve => .odd
  | .odd => .eve

/-- Modelled from the spec (§3 Invariant): the physical pair reached by
alternating from the starting pair once per executed pass. -/
def pairAfterPasses (s : BufPair) : Nat → BufPair
  | 0 => s
  | n + 1 => togglePair (pairAfterPasses s n)

/-- Modelled from the spec (§4.4): the pair the orchestrator reports as
holding the sorted result after running `passes` digit passes starting from
pair `start`. -/
def resultPair (start : BufPair) (passes : Nat) : BufPair :=
  pairAfterPasses start passes

/-! ### Embedding of the example driver `examples/simple_gpu_sort.rs` -/

/-- Translated from the source: `SimpleGpuSortState` (simple_gpu_sort.rs,
lines 338-343), the example node's own two-phase state. -/
inductive SimpleGpuSortState : Type
  | onLoad : SimpleGpuSortState
  | loaded : SimpleGpuSortState
deriving DecidableEq

/-- Modelled from the spec (§4.2) and the example's use sites
(simple_gpu_sort.rs, lines 353-361): the library's load state for the radix
sort compute pipelines — still compiling, compiled, or failed with a reason.
Only the `loaded` and `failed` constructors are inspected by the example;
every other status leaves the node state unchanged and is represented by
`loading`. -/
inductive LoadState : Type
  | loading : LoadState
  | loaded : LoadState
  | failed : String → LoadState
deriving DecidableEq

/-- Translated from the source: `SimpleGpuSortNode::update`
(simple_gpu_sort.rs, lines 350-363).  When the node is still `OnLoad` it
checks the library load state: a `Failed` state panics with the reason
(modelled as `Except.error`), `Loaded` advances the node to `Loaded`, and
anything else leaves it `OnLoad`.  Once `Loaded` the node never changes
state again. -/
def nodeUpdate : SimpleGpuSortState → LoadState → Except String SimpleGpuSortState
  | .loaded, _ => .ok .loaded
  | .onLoad, .failed err => .error err
  | .onLoad, .loaded => .ok .loaded
  | .onLoad, .loading => .ok .onLoad

/-- Translated from the source: the GPU buffers named in
`SimpleGpuSortNode::run` (simple_gpu_sort.rs, lines 365-449): the four
staging buffers of `SimpleGpuSortResource` and the two even ("EVE") global
storage buffers of the radix sort library. -/
inductive GpuBuf : Type
  | iKeysBuf : GpuBuf
  | iValsBuf : GpuBuf
  | oKeysBuf : GpuBuf
  | oValsBuf : GpuBuf
  | eveGlobalKeysBuf : GpuBuf
  | eveGlobalValsBuf : GpuBuf
deriving DecidableEq

/-- Translated from the source: the device commands `SimpleGpuSortNode::run`
can encode — buffer-to-buffer copies and the radix sort pass range
invocation `bevy_radix_sort::run(..., pass_range, flag1, flag2)`. -/
inductive NodeOp : Type
  | copyBufferToBuffer : GpuBuf → GpuBuf → NodeOp
  | radixSortRun : Nat → Nat → Bool → Bool → NodeOp
deriving DecidableEq

/-- Translated from the source: `SimpleGpuSortNode::run` (simple_gpu_sort.rs,
lines 365-449).  If the node is still `OnLoad` or no sort was requested it
returns immediately, encoding nothing (lines 371-375).  Otherwise it copies
the input staging buffers into the EVE global storage buffers, invokes the
radix sort over pass range `0..4` with trailing flags `(false, true)`, and
copies the EVE global storage buffers back out to the output staging
buffers (lines 396-444). -/
def nodeRun (state : SimpleGpuSortState) (requested : Bool) : List NodeOp :=
  if state = .onLoad ∨ requested = false then []
  else
    [.copyBufferToBuffer .iKeysBuf .eveGlobalKeysBuf,
     .copyBufferToBuffer .iValsBuf .eveGlobalValsBuf,
     .radixSortRun 0 4 false true,
     .copyBufferToBuffer .eveGlobalKeysBuf .oKeysBuf,
     .copyBufferToBuffer .eveGlobalValsBuf .oValsBuf]

/-! ### Staging buffer host access traces -/

/-- Translated from the source: the host-visible staging buffers of
`SimpleGpuSortResource` (simple_gpu_sort.rs, lines 221-231). -/
inductive StagingBuf : Type
  | iKeysBuf : StagingBuf
  | iValsBuf : StagingBuf
  | oKeysBuf : StagingBuf
  | oValsBuf : StagingBuf
deriving DecidableEq

/-- Translated from the source: the buffer map mode (`MapMode::Write` for
uploads, `MapMode::Read` for downloads). -/
inductive MapMode : Type
  | write : MapMode
  | read : MapMode
deriving DecidableEq

/-- Translated from the source: the host-side buffer operations performed by
`write_random_kvs_to_staging_bufs` and
`read_sorted_kvs_from_gpu_storage_bufs`: an asynchronous map request, the
blocking device poll (`device.poll(Maintain::wait())`, whose result either
panics on timeout or is silently dropped, recorded by the flag), a byte copy
through the mapped range, and an unmap. -/
inductive HostOp : Type
  | mapAsync : StagingBuf → MapMode → HostOp
  | pollWait : Bool → HostOp
  | copyBytes : StagingBuf → HostOp
  | unmap : StagingBuf → HostOp
deriving DecidableEq

/-- Translated from the source: `write_random_kvs_to_staging_bufs`
(simple_gpu_sort.rs, lines 278-307): map both input staging buffers for
write, block on the device poll with `panic_on_timeout`, copy the generated
bytes into both mapped ranges, then unmap both buffers. -/
def write_random_kvs_to_staging_bufs_ops : List HostOp :=
  [.mapAsync .iKeysBuf .write, .mapAsync .iValsBuf .write,
   .pollWait true,
   .copyBytes .iKeysBuf, .copyBytes .iValsBuf,
   .unmap .iKeysBuf, .unmap .iValsBuf]

/-- Translated from the source: `read_sorted_kvs_from_gpu_storage_bufs`
(simple_gpu_sort.rs, lines 309-332): map both output staging buffers for
read, block on the device poll with `panic_on_timeout`, copy the bytes out
of both mapped ranges, then unmap both buffers. -/
def read_sorted_kvs_from_gpu_storage_bufs_ops : List HostOp :=
  [.mapAsync .oKeysBuf .read, .mapAsync .oValsBuf .read,
   .pollWait true,
   .copyBytes .oKeysBuf, .copyBytes .oValsBuf,
   .unmap .oKeysBuf, .unmap .oValsBuf]

/-- The mapping status of one staging buffer while a host access trace runs:
not mapped, map requested but completion not yet signalled, or mapped and
safe to touch. -/
inductive MapStatus : Type
  | unmapped : MapStatus
  | requested : MapMode → MapStatus
  | mapped : MapMode → MapStatus
deriving DecidableEq

/-- The mapping status of all four staging buffers. -/
structure MapTracker : Type where
  iKeys : MapStatus
  iVals : MapStatus
  oKeys : MapStatus
  oVals : MapStatus
deriving DecidableEq

def MapTracker.get (t : MapTracker) : StagingBuf → MapStatus
  | .iKeysBuf => t.iKeys
  | .iValsBuf => t.iVals
  | .oKeysBuf => t.oKeys
  | .oValsBuf => t.oVals

def MapTracker.set (t : MapTracker) : StagingBuf → MapStatus → MapTracker
  | .iKeysBuf, s => { t with iKeys := s }
  | .iValsBuf, s => { t with iVals := s }
  | .oKeysBuf, s => { t with oKeys := s }
  | .oValsBuf, s => { t with oVals := s }

/-- The device poll signals completion of every outstanding map request. -/
def MapStatus.complete : MapStatus → MapStatus
  | .requested m => .mapped m
  | s => s

def MapTracker.completeAll (t : MapTracker) : MapTracker :=
  ⟨t.iKeys.complete, t.iVals.complete, t.oKeys.complete, t.oVals.complete⟩

def initTracker : MapTracker :=
  ⟨.unmapped, .unmapped, .unmapped, .unmapped⟩

/-- One step of the host access protocol: mapping requires the buffer to be
unmapped (no reuse of a mapped buffer), touching the mapped range requires
the completion signal to have arrived, and unmapping requires the buffer to
be mapped.  A violation aborts the trace with `none`. -/
def stepOp (t : Option MapTracker) (op : HostOp) : Option MapTracker :=
  match t with
  | none => none
  | some t =>
      match op with
      | .mapAsync b m =>
          match t.get b with
          | .unmapped => some (t.set b (.requested m))
          | _ => none
      | .pollWait _ => some t.completeAll
      | .copyBytes b =>
          match t.get b with
          | .mapped _ => some t
          | _ => none
      | .unmap b =>
          match t.get b with
          | .mapped _ => some (t.set b .unmapped)
          | _ => none

/-- A host access trace is well sequenced when every step respects the
mapping protocol and every buffer ends unmapped. -/
def wellSequenced (ops : List HostOp) : Bool :=
  decide (ops.foldl stepOp (some initTracker) = some initTracker)

/-- Every map request in the trace uses the given mode. -/
def mapsOnlyWith (m : MapMode) (ops : List HostOp) : Bool :=
  ops.all fun op =>
    match op with
    | .mapAsync _ m2 => decide (m2 = m)
    | _ => true

/-- Every device wait in the trace treats a timeout as fatal (panics). -/
def allWaitsFatal (ops : List HostOp) : Bool :=
  ops.all fun op =>
    match op with
    | .pollWait fatal => fatal
    | _ => true

/-! ### The example's random input generator -/

/-- Translated from the source: the data written by
`write_random_kvs_to_staging_bufs` (simple_gpu_sort.rs, lines 278-283).
The keys are `length` samples of `rng.gen_range(0..length as u32)` — the
random stream is abstracted as `r`, of which sample `i` is reduced into the
requested range — and the values are the sequence `0, 1, ..., length - 1`.
For `length = 0` nothing is generated.  For `length ≥ 2^32` the `usize →
u32` cast truncates and the Rust code panics (an empty `gen_range` range, or
a slice length mismatch when copying the values), modelled as `none`. -/
def write_random_kvs_to_staging_bufs (r : Nat → Nat) (length : Nat) :
    Option (List Nat × List Nat) :=
  if length = 0 then some ([], [])
  else if 2 ^ 32 ≤ length then none
  else some ((List.range length).map fun i => r i % length, List.range length)

/-! ### Shared helper lemmas about `sortCall` -/

theorem zip_map_fst_snd : ∀ l : List (Nat × Nat), (l.map Prod.fst).zip (l.map Prod.snd) = l
  | [] => rfl
  | _ :: l => by simp [zip_map_fst_snd l]

theorem sortCall_eq_of_le {capacity gsize maxD : Nat} {keys vals : List Nat}
    (hlen : keys.length ≤ capacity) :
    sortCall capacity gsize maxD keys vals
      = .ok ⟨(radixSort (keys.zip vals)).map Prod.fst,
             (radixSort (keys.zip vals)).map Prod.snd,
             4 * passDispatches gsize maxD keys.length⟩ := by
  unfold sortCall
  rw [if_neg (Nat.not_lt.mpr hlen)]

theorem sortCall_sorted_of_le {capacity gsize maxD : Nat} {keys vals : List Nat}
    (hlen : keys.length ≤ capacity) (hkeys : ∀ k ∈ keys, k < 2 ^ 32) :
    ∃ r : SortResult, sortCall capacity gsize maxD keys vals = .ok r ∧
      List.Pairwise (fun a b => a ≤ b) r.keys := by
  refine ⟨_, sortCall_eq_of_le hlen, ?_⟩
  apply radixSort_sorted_of_lt
  intro e he
  obtain ⟨a, b⟩ := e
  exact hkeys a (List.of_mem_zip he).1

/-! ### Claim theorems -/

/-- C1: for every input of length `0 ≤ length ≤ capacity` with arbitrary
`u32` keys and equal-length values, the key array returned by `sort` is
non-decreasing under unsigned 32-bit numeric order. -/
theorem sort_output_keys_nondecreasing (capacity gsize maxD : Nat)
    (keys vals : List Nat) (hlen : keys.length ≤ capacity)
    (_hval : keys.length = vals.length) (hkeys : ∀ k ∈ keys, k < 2 ^ 32) :
    ∃ r : SortResult, sortCall capacity gsize maxD keys vals = .ok r ∧
      List.Pairwise (fun a b => a ≤ b) r.keys :=
  sortCall_sorted_of_le hlen hkeys

/-- Witness for C1 at the spec's concrete scenario. -/
theorem sort_output_keys_nondecreasing_witness :
    ∃ r : SortResult, sortCall 1048576 256 65535 [5, 1, 5, 0, 3] [10, 11, 12, 13, 14] = .ok r ∧
      List.Pairwise (fun a b => a ≤ b) r.keys :=
  sort_output_keys_nondecreasing 1048576 256 65535 [5, 1, 5, 0, 3] [10, 11, 12, 13, 14]
    (by decide) (by decide) (by decide)

/-- C2: the sort is stable — for every input, the subsequence of pairs
carrying any fixed key `k` is preserved exactly (so for input indices
`i < j` with equal keys, the value from `i` stays before the value from
`j`); in particular the spec's two concrete scenarios hold, values
permuted identically with their keys. -/
theorem sort_stability :
    (∀ (ps : List (Nat × Nat)) (k : Nat),
        (radixSort ps).filter (fun e => e.1 = k) = ps.filter (fun e => e.1 = k)) ∧
    radixSort [(5, 10), (1, 11), (5, 12), (0, 13), (3, 14)]
      = [(0, 13), (1, 11), (3, 14), (5, 10), (5, 12)] ∧
    radixSort [(7, 1), (7, 2), (7, 3)] = [(7, 1), (7, 2), (7, 3)] ∧
    sortCall 1048576 256 65535 [5, 1, 5, 0, 3] [10, 11, 12, 13, 14]
      = .ok ⟨[0, 1, 3, 5, 5], [13, 11, 14, 10, 12], 4⟩ ∧
    sortCall 1048576 256 65535 [7, 7, 7] [1, 2, 3] = .ok ⟨[7, 7, 7], [1, 2, 3], 4⟩ :=
  ⟨fun ps k => radixSort_filter_key k ps, by decide, by decide, by rfl, by rfl⟩

/-- C3: the sort is a permutation of the paired input — the multiset of
output (key, value) pairs equals the multiset of input pairs, hence the
multiset of output keys equals the multiset of input keys and every value
stays at the position of the key it was paired with. -/
theorem sort_permutation :
    (∀ ps : List (Nat × Nat), (radixSort ps).Perm ps) ∧
    (∀ (capacity gsize maxD : Nat) (keys vals : List Nat) (r : SortResult),
      sortCall capacity gsize maxD keys vals = .ok r →
        (r.keys.zip r.vals).Perm (keys.zip vals) ∧
        (keys.length = vals.length → r.keys.Perm keys)) := by
  refine ⟨radixSort_perm, ?_⟩
  intro capacity gsize maxD keys vals r hok
  have hlen : keys.length ≤ capacity := by
    by_contra hc
    rw [sortCall, if_pos (by omega)] at hok
    exact Except.noConfusion hok
  rw [sortCall_eq_of_le hlen] at hok
  cases hok
  constructor
  · rw [zip_map_fst_snd]
    exact radixSort_perm _
  · intro hv
    have h1 : ((radixSort (keys.zip vals)).map Prod.fst).Perm ((keys.zip vals).map Prod.fst) :=
      (radixSort_perm _).map Prod.fst
    rwa [List.map_fst_zip keys vals (by omega)] at h1

/-- Witness for C3's `sortCall` branch at a concrete input. -/
theorem sort_permutation_witness :
    (([0, 1, 3, 5, 5] : List Nat).zip [13, 11, 14, 10, 12]).Perm
        (([5, 1, 5, 0, 3] : List Nat).zip [10, 11, 12, 13, 14]) ∧
      (([5, 1, 5, 0, 3] : List Nat).length = ([10, 11, 12, 13, 14] : List Nat).length →
        ([0, 1, 3, 5, 5] : List Nat).Perm [5, 1, 5, 0, 3]) :=
  sort_permutation.2 1048576 256 65535 [5, 1, 5, 0, 3] [10, 11, 12, 13, 14]
    ⟨[0, 1, 3, 5, 5], [13, 11, 14, 10, 12], 4⟩ (by rfl)

/-- C4: boundary and error behaviour of `sort` — a zero-length request
returns empty arrays with zero dispatches (each digit pass over zero
elements issues zero dispatches), a request of exactly `capacity` elements
succeeds, and any request longer than the capacity (in particular
`capacity + 1`) is rejected immediately as a `ConfigurationError`, issuing
no device work. -/
theorem sort_boundary_behaviour (capacity gsize maxD : Nat) (keys vals : List Nat) :
    sortCall capacity gsize maxD [] [] = .ok ⟨[], [], 0⟩ ∧
    passDispatches gsize maxD 0 = 0 ∧
    (keys.length = capacity → ∃ r, sortCall capacity gsize maxD keys vals = .ok r) ∧
    (capacity < keys.length →
      sortCall capacity gsize maxD keys vals = .error .configurationError) ∧
    (keys.length = capacity + 1 →
      sortCall capacity gsize maxD keys vals = .error .configurationError) := by
  refine ⟨?_, ?_, ?_, ?_, ?_⟩
  · rw [sortCall_eq_of_le (by simp)]
    simp [passDispatches, radixSort, radixSortPasses, digitPass]
  · simp [passDispatches]
  · intro h
    exact ⟨_, sortCall_eq_of_le (by omega)⟩
  · intro h
    rw [sortCall, if_pos h]
  · intro h
    rw [sortCall, if_pos (by omega)]

/-- Witness for C4 at capacity 2: length 2 succeeds, length 3 is rejected. -/
theorem sort_boundary_behaviour_witness :
    (∃ r, sortCall 2 256 65535 [9, 4] [0, 1] = .ok r) ∧
    sortCall 2 256 65535 [9, 4, 7] [0, 1, 2] = .error .configurationError :=
  ⟨(sort_boundary_behaviour 2 256 65535 [9, 4] [0, 1]).2.2.1 (by decide),
   (sort_boundary_behaviour 2 256 65535 [9, 4, 7] [0, 1, 2]).2.2.2.2 (by decide)⟩

/-- C5: after the fixed even number of passes (4, one per 8-bit digit of a
32-bit key, alternating source/destination pairs each pass), the sorted
result resides in the same physical buffer pair the sort started from, and
the engine reports that pair; the example accordingly uploads to the even
("EVE") global storage buffers, runs passes `0..4`, and reads the result
back from the same EVE buffers. -/
theorem even_pass_count_result_pair :
    (∀ s : BufPair, resultPair s 4 = s) ∧
    resultPair .eve 4 = .eve ∧
    nodeRun .loaded true
      = [.copyBufferToBuffer .iKeysBuf .eveGlobalKeysBuf,
         .copyBufferToBuffer .iValsBuf .eveGlobalValsBuf,
         .radixSortRun 0 4 false true,
         .copyBufferToBuffer .eveGlobalKeysBuf .oKeysBuf,
         .copyBufferToBuffer .eveGlobalValsBuf .oValsBuf] := by
  refine ⟨fun s => ?_, by decide, by decide⟩
  cases s <;> rfl

/-- C6: while readiness is `Pending` a sort request is deferred — the
example's node `run` encodes no device commands at all while its state is
still `OnLoad`, and the engine's gated sort issues nothing and consumes no
buffers (`none`) — and a later sort performed once readiness is `Ready`
still produces correct (sorted) results. -/
theorem pending_sort_deferred (capacity gsize maxD : Nat) (requested : Bool)
    (keys vals : List Nat) (hlen : keys.length ≤ capacity)
    (hkeys : ∀ k ∈ keys, k < 2 ^ 32) :
    nodeRun .onLoad requested = [] ∧
    gatedSort .pending capacity gsize maxD keys vals = none ∧
    ∃ r : SortResult, gatedSort .ready capacity gsize maxD keys vals = some (.ok r) ∧
      List.Pairwise (fun a b => a ≤ b) r.keys := by
  refine ⟨by simp [nodeRun], rfl, ?_⟩
  obtain ⟨r, hr, hs⟩ := sortCall_sorted_of_le hlen hkeys
  exact ⟨r, by rw [gatedSort, hr], hs⟩

/-- Witness for C6 at a concrete deferred-then-ready scenario. -/
theorem pending_sort_deferred_witness :
    nodeRun .onLoad true = [] ∧
    gatedSort .pending 8 256 65535 [3, 1, 2] [0, 1, 2] = none ∧
    ∃ r : SortResult, gatedSort .ready 8 256 65535 [3, 1, 2] [0, 1, 2] = some (.ok r) ∧
      List.Pairwise (fun a b => a ≤ b) r.keys :=
  pending_sort_deferred 8 256 65535 true [3, 1, 2] [0, 1, 2] (by decide) (by decide)

/-- C7: the readiness state machine only moves forward — the only
transitions out of `pending` are to `pending`, `ready` or `failed`, and
`ready` and `failed` are terminal (subsequent polls are no-ops); the
example's node state likewise only moves `OnLoad → Loaded` and never
back. -/
theorem readiness_forward_only (c : CompileStatus) (r : String) (ls : LoadState) :
    pollStep .ready c = .ready ∧
    pollStep (.failed r) c = .failed r ∧
    (pollStep .pending c = .pending ∨ pollStep .pending c = .ready ∨
      ∃ e, pollStep .pending c = .failed e) ∧
    nodeUpdate .loaded ls = .ok .loaded ∧
    (∀ s s', nodeUpdate s ls = .ok s' →
      s = s' ∨ (s = .onLoad ∧ s' = .loaded)) := by
  refine ⟨rfl, rfl, ?_, rfl, ?_⟩
  · cases c with
    | inProgress => exact Or.inl rfl
    | success => exact Or.inr (Or.inl rfl)
    | failure e => exact Or.inr (Or.inr ⟨e, rfl⟩)
  · intro s s' h
    cases s with
    | loaded =>
        cases h
        exact Or.inl rfl
    | onLoad =>
        cases ls with
        | loading => cases h; exact Or.inl rfl
        | loaded => cases h; exact Or.inr ⟨rfl, rfl⟩
        | failed e => exact Except.noConfusion h

/-- Witness for C7: the node transition `OnLoad → Loaded` satisfies the
forward-only disjunction. -/
theorem readiness_forward_only_witness :
    SimpleGpuSortState.onLoad = SimpleGpuSortState.loaded ∨
      (SimpleGpuSortState.onLoad = SimpleGpuSortState.onLoad ∧
        SimpleGpuSortState.loaded = SimpleGpuSortState.loaded) :=
  (readiness_forward_only .success "e" .loaded).2.2.2.2 .onLoad .loaded rfl

/-- C8: a `Failed(reason)` readiness state is surfaced to the caller as a
fatal error — the example's node `update` panics with the reason — it is
never retried (polling a failed tracker is a no-op), and no sort may
proceed from that state: the gated sort returns the fatal compilation
failure instead of running. -/
theorem failed_state_fatal (e : String) (c : CompileStatus)
    (capacity gsize maxD : Nat) (keys vals : List Nat) :
    nodeUpdate .onLoad (.failed e) = .error e ∧
    gatedSort (.failed e) capacity gsize maxD keys vals
      = some (.error (.compilationFailure e)) ∧
    pollStep (.failed e) c = .failed e :=
  ⟨rfl, rfl, rfl⟩

/-- C9: every host access to a staging buffer in the example follows the
sequence map-asynchronously, wait for the device completion signal, copy
bytes, unmap before reuse; mapped memory is never touched before the
completion signal, every mapped buffer is unmapped on the way out, the
upload path maps for write and the download path maps for read, and every
device wait treats a timeout as fatal (panics) rather than silently
ignoring it. -/
theorem staging_access_protocol :
    wellSequenced write_random_kvs_to_staging_bufs_ops = true ∧
    wellSequenced read_sorted_kvs_from_gpu_storage_bufs_ops = true ∧
    mapsOnlyWith .write write_random_kvs_to_staging_bufs_ops = true ∧
    mapsOnlyWith .read read_sorted_kvs_from_gpu_storage_bufs_ops = true ∧
    allWaitsFatal write_random_kvs_to_staging_bufs_ops = true ∧
    allWaitsFatal read_sorted_kvs_from_gpu_storage_bufs_ops = true := by
  decide

/-- C10: the example's input generator writes, for every requested length it
accepts, keys each strictly below `length` (never an arbitrary `u32`) and
values that are exactly the identity sequence `0, 1, ..., length - 1`, so
the sorted value array encodes the sorting permutation; for `length = 0` it
writes nothing. -/
theorem write_random_kvs_shape (r : Nat → Nat) (length : Nat)
    (kv : List Nat × List Nat)
    (h : write_random_kvs_to_staging_bufs r length = some kv) :
    (∀ k ∈ kv.1, k < length) ∧ kv.2 = List.range length ∧
    kv.1.length = length ∧ (length = 0 → kv.1 = [] ∧ kv.2 = []) := by
  rw [write_random_kvs_to_staging_bufs] at h
  by_cases h0 : length = 0
  · rw [if_pos h0] at h
    cases h
    subst h0
    exact ⟨by simp, by simp, by simp, fun _ => ⟨rfl, rfl⟩⟩
  · rw [if_neg h0] at h
    by_cases hbig : 2 ^ 32 ≤ length
    · rw [if_pos hbig] at h
      exact Option.noConfusion h
    · rw [if_neg hbig] at h
      cases h
      refine ⟨?_, rfl, by simp, fun hz => absurd hz h0⟩
      intro k hk
      rcases List.mem_map.mp hk with ⟨i, _, hik⟩
      rw [← hik]
      exact Nat.mod_lt _ (by omega)

/-- Witness for C10 at `length = 3` with the identity random stream. -/
theorem write_random_kvs_shape_witness :
    (∀ k ∈ (([0, 1, 2], [0, 1, 2]) : List Nat × List Nat).1, k < 3) ∧
    (([0, 1, 2], [0, 1, 2]) : List Nat × List Nat).2 = List.range 3 ∧
    (([0, 1, 2], [0, 1, 2]) : List Nat × List Nat).1.length = 3 ∧
    (3 = 0 → (([0, 1, 2], [0, 1, 2]) : List Nat × List Nat).1 = [] ∧
      (([0, 1, 2], [0, 1, 2]) : List Nat × List Nat).2 = []) :=
  write_random_kvs_shape (fun i => i) 3 ([0, 1, 2], [0, 1, 2]) (by decide)

end BevyRadixSort
